import Mathlib

set_option synthInstance.maxSize 512

/-!
# Opcode conflict detection and decode-tree synthesis: a shallow embedding

This file embeds the algorithmic core of the `riscv-custom-extension`
repository in Lean 4 and proves properties of it:

* `Extensions.check_opcodes` and the scan loop at the end of
  `Extensions.gen_instructions` (`python/modelparsing/extensions.py`,
  lines 72-110 and 180-183): pairwise opcode-overlap detection.
* `Extensions.gen_instructions` (`extensions.py`, lines 112-183): pairing of
  parsed models with the resolver-produced mask/match values, and the error
  behaviour of that pairing.
* `Gem5.gen_decoder` (`modelparsing/gem5.py`, lines 99-143): the in-place
  sort of the model list and the two-level `opcode -> funct3 (-> funct7)`
  grouping performed by the mako template's python prelude.

Machine integers are `Nat` (the only operations used are `&&&` and equality,
which cannot overflow).  Python `dict`s are modelled as insertion-ordered
association lists: assignment to an existing key replaces the value in place
keeping the key's position, assignment to a fresh key appends; iteration
follows that order.  Fallible code returns `Except`.
-/

/-!
## Data model

`modelparsing/model.py` is not under `src/`, only its consumers are.
Modelled from the spec: spec §3 "InstructionModel" lists the fields
`name`, `form` (one of `'R'`/`'I'`), `opcode` (`opc` in the code's accesses,
see `gem5.py` line 106), `funct3`, `funct7`, `cycles`; the opaque
`definition` payload is never inspected by the grouping logic and is omitted.
-/

structure Model where
  name : String
  form : Char
  opc : Nat
  funct3 : Nat
  funct7 : Nat
  cycles : Nat
deriving DecidableEq

/-!
`instruction.py` is not under `src/` either.  Modelled from the spec:
spec §3 "EncodedInstruction" pairs a model with the resolver-produced
`mask : u32` and `match : u32`.  Field names follow the attribute accesses in
`extensions.py` (`inst.name`, `inst.form`, `inst.maskvalue`,
`inst.matchvalue`) and the constructor call
`Instruction(cycles, form, mask, match, name)` at `extensions.py:173-177`.
-/

structure Instruction where
  cycles : Nat
  form : Char
  maskvalue : Nat
  matchvalue : Nat
  name : String
deriving DecidableEq

/-- `OpcodeError` from `exceptions.py` (not under `src/`).  Modelled from the
spec and its raise sites in `extensions.py`: it is constructed from a single
message string (`raise OpcodeError('Function opcode could not be generated')`),
so the value carries only that string. -/
structure OpcodeError where
  msg : String
deriving DecidableEq

/-- The one message ever passed to `OpcodeError` in `extensions.py`
(lines 96, 110 and 146). -/
def opcodeErrorMsg : String := "Function opcode could not be generated"

instance {ε α : Type} [DecidableEq ε] [DecidableEq α] : DecidableEq (Except ε α) := fun x y =>
  match x, y with
  | .ok a, .ok b =>
    if h : a = b then .isTrue (congrArg Except.ok h)
    else .isFalse (fun hc => h (Except.ok.inj hc))
  | .ok _, .error _ => .isFalse (fun hc => Except.noConfusion hc)
  | .error _, .ok _ => .isFalse (fun hc => Except.noConfusion hc)
  | .error e, .error f =>
    if h : e = f then .isTrue (congrArg Except.error h)
    else .isFalse (fun hc => h (Except.error.inj hc))

/-!
## Conflict detector: `Extensions.check_opcodes` (extensions.py:72-110)

`check_opcodes(self, inst)` walks `self._insts`; entries with the same name
are skipped; an entry `inst2` of form `'R'` raises when
`(inst2.matchvalue & inst.maskvalue) == inst2.matchvalue`, an entry of form
`'I'` raises when
`(inst2.matchvalue & inst.maskvalue) == (inst.matchvalue & inst2.maskvalue)`.
-/

def check_opcodes : List Instruction → Instruction → Except OpcodeError Unit
  | [], _ => .ok ()
  | inst2 :: rest, inst =>
    if inst2.name = inst.name then
      check_opcodes rest inst
    else if inst2.form = 'R' ∧ (inst2.matchvalue &&& inst.maskvalue) = inst2.matchvalue then
      .error ⟨opcodeErrorMsg⟩
    else if inst2.form = 'I' ∧
        (inst2.matchvalue &&& inst.maskvalue) = (inst.matchvalue &&& inst2.maskvalue) then
      .error ⟨opcodeErrorMsg⟩
    else
      check_opcodes rest inst

/-- The loop body condition under which `check_opcodes` raises for the working
set entry `inst2` while checking `inst` (extensions.py:79-110). -/
def fires (inst2 inst : Instruction) : Prop :=
  inst2.name ≠ inst.name ∧
    ((inst2.form = 'R' ∧ (inst2.matchvalue &&& inst.maskvalue) = inst2.matchvalue) ∨
     (inst2.form = 'I' ∧
       (inst2.matchvalue &&& inst.maskvalue) = (inst.matchvalue &&& inst2.maskvalue)))

instance (inst2 inst : Instruction) : Decidable (fires inst2 inst) := by
  unfold fires; infer_instance

/-- The scan loop at extensions.py:182-183: every instruction of the working
set is checked against the full set (auxiliary recursion over the second
copy of the list). -/
def checkAllAux (insts : List Instruction) : List Instruction → Except OpcodeError Unit
  | [] => .ok ()
  | inst :: rest =>
    match check_opcodes insts inst with
    | .ok _ => checkAllAux insts rest
    | .error e => .error e

/-- `for inst in self._insts: self.check_opcodes(inst)` (extensions.py:182-183). -/
def checkAll (insts : List Instruction) : Except OpcodeError Unit :=
  checkAllAux insts insts

/-- The batch-level verdict on a two-instruction working set: does the full
scan over `[a, b]` raise an `OpcodeError`? -/
def pairConflict (a b : Instruction) : Bool :=
  match checkAll [a, b] with
  | .ok _ => false
  | .error _ => true

/-!
## Instruction generation: `Extensions.gen_instructions` (extensions.py:112-183)

The subprocess invocation of the external `parse-opcodes` script
(extensions.py:132-137) is the encoding-resolver boundary.  Its outcome is a
parameter here: `none` models the tooling-failure branch at
extensions.py:139-146 (`if not defines or err`), `some (masks, matches)`
models a successful run whose stdout yielded the listed `#define MASK`/
`#define MATCH` values (extensions.py:160-165), in order.
-/

inductive GenError where
  /-- a raised `OpcodeError` (extensions.py:146 or via `check_opcodes`) -/
  | opcodeError (msg : String)
  /-- an uncaught python `IndexError` from `masks[i]` / `matches[i]`
  (extensions.py:175-176) when the resolver returned fewer pairs than there
  are models -/
  | indexError
  /-- the failed `assert len(masks) == len(matches)` (extensions.py:168-169) -/
  | assertionError
deriving DecidableEq

/-- The construction loop at extensions.py:172-178:
`Instruction(models[i].cycles, models[i].form, masks[i], matches[i],
models[i].name)` for `i in range(0, len(models))`; indexing past the end of
`masks` or `matches` is a python `IndexError`.  Resolver entries beyond
`len(models)` are never read. -/
def buildInsts : List Model → List Nat → List Nat → Except GenError (List Instruction)
  | [], _, _ => .ok []
  | m :: rest, mk :: mks, mt :: mts =>
    match buildInsts rest mks mts with
    | .ok insts => .ok (⟨m.cycles, m.form, mk, mt, m.name⟩ :: insts)
    | .error e => .error e
  | _ :: _, _, _ => .error .indexError

/-- `Extensions.gen_instructions` after the resolver boundary: raise
`OpcodeError` on a tooling failure, assert the two `#define` lists have equal
length, build the instruction list positionally, then run the conflict scan
(extensions.py:180-183). -/
def gen_instructions (models : List Model) (resolved : Option (List Nat × List Nat)) :
    Except GenError (List Instruction) :=
  match resolved with
  | none => .error (.opcodeError opcodeErrorMsg)
  | some (maskList, matchList) =>
    if maskList.length = matchList.length then
      match buildInsts models maskList matchList with
      | .ok insts =>
        match checkAll insts with
        | .ok _ => .ok insts
        | .error e => .error (.opcodeError e.msg)
      | .error e => .error e
    else .error .assertionError

/-!
## Decode-tree synthesis: `Gem5.gen_decoder` (gem5.py:99-143)

`gen_decoder` first sorts `self._models` **in place** by the key
`(x.opc, x.funct3, x.funct7)` (gem5.py:106), then the python prelude of the
mako template (gem5.py:108-126) groups the sorted models into a dict
`opc -> (funct3 -> model | [model])`: an `'I'`-form model is assigned as a
single leaf (`funct3[mdl.funct3] = mdl`, overwriting whatever the slot held),
any other form is appended to the list at its slot
(`funct3[mdl.funct3].append(mdl)`), which is a python `AttributeError` when
the slot holds a single model instead of a list.
-/

/-- Python dict assignment `d[k] = v` on an insertion-ordered dict: replace
the value at an existing key in place, otherwise append a new binding. -/
def dictSet {α : Type} : List (Nat × α) → Nat → α → List (Nat × α)
  | [], k, v => [(k, v)]
  | (k', v') :: rest, k, v =>
    if k' = k then (k', v) :: rest else (k', v') :: dictSet rest k v

/-- Python dict lookup `d[k]` / `k in d`. -/
def dictGet {α : Type} : List (Nat × α) → Nat → Option α
  | [], _ => none
  | (k', v') :: rest, k => if k' = k then some v' else dictGet rest k

/-- The value stored in a `funct3` slot: either a single `'I'`-form model
(`funct3[mdl.funct3] = mdl`) or the list collecting the other forms
(`funct3[mdl.funct3] = [mdl]` / `.append(mdl)`). -/
inductive F3Entry where
  | leaf (m : Model)
  | group (ms : List Model)
deriving DecidableEq

/-- A python runtime error escaping the template prelude. -/
inductive PyError where
  /-- `AttributeError`: `.append` called on a model stored as a single leaf -/
  | attributeError
deriving DecidableEq

/-- Python tuple comparison of the sort key
`(x.opc, x.funct3, x.funct7)` (gem5.py:106): lexicographic. -/
def modelKeyLe (x y : Model) : Bool :=
  decide (x.opc < y.opc ∨ (x.opc = y.opc ∧
    (x.funct3 < y.funct3 ∨ (x.funct3 = y.funct3 ∧ x.funct7 ≤ y.funct7))))

/-- Insert into a key-sorted list, before the first element that is not
strictly smaller (so an element inserted later lands after earlier ties:
the stability discipline of python's `list.sort`). -/
def insertModel (m : Model) : List Model → List Model
  | [] => [m]
  | x :: xs => if modelKeyLe m x then m :: x :: xs else x :: insertModel m xs

/-- `self._models.sort(key=lambda x: (x.opc, x.funct3, x.funct7))`
(gem5.py:106): a stable sort by the lexicographic key, modelled as a stable
insertion sort. -/
def sortModels : List Model → List Model
  | [] => []
  | m :: rest => insertModel m (sortModels rest)

/-- The grouping-by-opcode loop (gem5.py:110-114):
`dfn[model.opc].append(model)` for a seen opcode, `dfn[model.opc] = [model]`
for a fresh one. -/
def opcStep (dfn : List (Nat × List Model)) (m : Model) : List (Nat × List Model) :=
  match dictGet dfn m.opc with
  | some ms => dictSet dfn m.opc (ms ++ [m])
  | none => dictSet dfn m.opc [m]

def buildOpcDict (models : List Model) : List (Nat × List Model) :=
  models.foldl opcStep []

/-- One step of the funct3-grouping loop (gem5.py:117-124). -/
def f3Step (funct3 : List (Nat × F3Entry)) (mdl : Model) :
    Except PyError (List (Nat × F3Entry)) :=
  if mdl.form = 'I' then
    .ok (dictSet funct3 mdl.funct3 (.leaf mdl))
  else
    match dictGet funct3 mdl.funct3 with
    | some (.group ms) => .ok (dictSet funct3 mdl.funct3 (.group (ms ++ [mdl])))
    | some (.leaf _) => .error .attributeError
    | none => .ok (dictSet funct3 mdl.funct3 (.group [mdl]))

/-- Left fold of `f3Step` in the `Except` monad, from an explicit
accumulator. -/
def buildF3DictAux (funct3 : List (Nat × F3Entry)) :
    List Model → Except PyError (List (Nat × F3Entry))
  | [] => .ok funct3
  | mdl :: rest =>
    match f3Step funct3 mdl with
    | .ok funct3' => buildF3DictAux funct3' rest
    | .error e => .error e

/-- The funct3 grouping of one opcode bucket (gem5.py:116-124):
`funct3 = {}` followed by the loop over the bucket's models. -/
def buildF3Dict (mdls : List Model) : Except PyError (List (Nat × F3Entry)) :=
  buildF3DictAux [] mdls

/-- The `dfn[opc] = funct3` pass over `dfn.items()` (gem5.py:115-125). -/
def genTree : List (Nat × List Model) → Except PyError (List (Nat × List (Nat × F3Entry)))
  | [] => .ok []
  | (opc, mdls) :: rest =>
    match buildF3Dict mdls, genTree rest with
    | .ok f3, .ok tree => .ok ((opc, f3) :: tree)
    | .error e, _ => .error e
    | _, .error e => .error e

/-- `Gem5.gen_decoder` (gem5.py:99-143): sort the models in place, group by
opcode, then replace each opcode bucket by its funct3 dict
(`dfn[opc] = funct3`, gem5.py:125).  Returns the caller-visible model list
after the call (the in-place-sorted list) together with the decode
structure. -/
def gen_decoder (models : List Model) :
    Except PyError (List Model × List (Nat × List (Nat × F3Entry))) :=
  match genTree (buildOpcDict (sortModels models)) with
  | .ok tree => .ok (sortModels models, tree)
  | .error e => .error e

/-- The models reached by one funct3 slot, in the order the mako template
emits them (gem5.py:127-141). -/
def flattenEntry : F3Entry → List Model
  | .leaf m => [m]
  | .group ms => ms

/-- The models reached by one opcode bucket's funct3 dict, in emission
order. -/
def flattenF3 (funct3 : List (Nat × F3Entry)) : List Model :=
  funct3.flatMap (fun q => flattenEntry q.2)

/-- Depth-first traversal order of the decode structure: opcode buckets in
dict order, funct3 entries in dict order, group members in list order —
exactly the order the mako template walks (gem5.py:127-141). -/
def flattenTree (tree : List (Nat × List (Nat × F3Entry))) : List Model :=
  tree.flatMap (fun p => flattenF3 p.2)

/-- The models of an opcode dict, bucket by bucket in dict order. -/
def concatBuckets (dfn : List (Nat × List Model)) : List Model :=
  dfn.flatMap Prod.snd

/-- Two models competing for the same dispatch slot (spec §4.3): same
`(opcode, funct3)` and either one of them is `ImmReg` or they share
`funct7`. -/
def slotClash (x y : Model) : Prop :=
  x.opc = y.opc ∧ x.funct3 = y.funct3 ∧
    (x.form = 'I' ∨ y.form = 'I' ∨ x.funct7 = y.funct7)

instance (x y : Model) : Decidable (slotClash x y) := by
  unfold slotClash; infer_instance

/-- A conflict-free batch in the sense of spec §4.3: no two models compete
for a dispatch slot. -/
def slotFree (models : List Model) : Prop :=
  models.Pairwise (fun x y => ¬ slotClash x y)

instance slotFreeDecidable : ∀ models : List Model, Decidable (slotFree models)
  | [] => .isTrue List.Pairwise.nil
  | m :: rest =>
    letI : Decidable (slotFree rest) := slotFreeDecidable rest
    decidable_of_iff ((∀ y ∈ rest, ¬ slotClash m y) ∧ slotFree rest)
      (by simp [slotFree, List.pairwise_cons])

/-!
## Concrete instances used by the claim theorems

Mask/match values follow the bit-field placement of the `opcodes-custom`
template (extensions.py:116-127): opcode in bits 6:2 with bits 1:0 fixed to
`3`, funct3 in bits 14:12, funct7 (R-form only) in bits 31:25.  Hence an
I-form instruction has mask `0x707F` and an R-form instruction mask
`0xFE00707F`.
-/

/-- R-form, opcode 2, funct3 0, funct7 1. -/
def c1a : Instruction := ⟨1, 'R', 0xFE00707F, 0x0200000B, "c1a"⟩
/-- I-form, opcode 2, funct3 0. -/
def c1b : Instruction := ⟨1, 'I', 0x707F, 0xB, "c1b"⟩
/-- R-form, opcode 2, funct3 0, funct7 0. -/
def c1wa : Instruction := ⟨1, 'R', 0xFE00707F, 0xB, "c1wa"⟩
/-- I-form, opcode 2, funct3 0. -/
def c1wb : Instruction := ⟨1, 'I', 0x707F, 0xB, "c1wb"⟩

/-- I-form, opcode 3, funct3 0. -/
def c2a : Instruction := ⟨1, 'I', 0x707F, 0xF, "c2a"⟩
/-- R-form, opcode 2, funct3 0, funct7 0. -/
def c2b : Instruction := ⟨1, 'R', 0xFE00707F, 0xB, "c2b"⟩
/-- I-form, opcode 3, funct3 0. -/
def c2wa : Instruction := ⟨1, 'I', 0x707F, 0xF, "c2wa"⟩
/-- I-form, opcode 3, funct3 0, bit-identical to `c2wa`. -/
def c2wb : Instruction := ⟨1, 'I', 0x707F, 0xF, "c2wb"⟩

/-- R-form, opcode 2, funct3 0, funct7 0. -/
def c3a : Instruction := ⟨1, 'R', 0xFE00707F, 0xB, "c3a"⟩
/-- I-form, opcode 3, funct3 0. -/
def c3b : Instruction := ⟨1, 'I', 0x707F, 0xF, "c3b"⟩
/-- I-form, opcode 2, funct3 0. -/
def c3wa : Instruction := ⟨1, 'I', 0x707F, 0xB, "c3wa"⟩
/-- I-form, opcode 2, funct3 1. -/
def c3wb : Instruction := ⟨1, 'I', 0x707F, 0x100B, "c3wb"⟩

/-- I-form, opcode 2, funct3 0. -/
def c8a1 : Instruction := ⟨1, 'I', 0x707F, 0xB, "c8a1"⟩
/-- I-form, opcode 2, funct3 0, bit-identical to `c8a1`. -/
def c8b1 : Instruction := ⟨1, 'I', 0x707F, 0xB, "c8b1"⟩
/-- I-form, opcode 3, funct3 0. -/
def c8a2 : Instruction := ⟨1, 'I', 0x707F, 0xF, "c8a2"⟩
/-- I-form, opcode 3, funct3 0, bit-identical to `c8a2`. -/
def c8b2 : Instruction := ⟨1, 'I', 0x707F, 0xF, "c8b2"⟩

/-- An instruction of a form that is neither `'R'` nor `'I'`. -/
def c10a : Instruction := ⟨1, 'F', 0xFF, 0xAB, "c10a"⟩
/-- Same form, bit-identical mask and match. -/
def c10b : Instruction := ⟨1, 'F', 0xFF, 0xAB, "c10b"⟩

/-- A single I-form model. -/
def c6m : Model := ⟨"c6m", 'I', 2, 0, 0, 1⟩

/-- I-form model at slot `(opcode 2, funct3 0)`. -/
def c4foo : Model := ⟨"foo", 'I', 2, 0, 0, 1⟩
/-- Second I-form model at the same slot `(opcode 2, funct3 0)`. -/
def c4bar : Model := ⟨"bar", 'I', 2, 0, 0, 1⟩
/-- R-form model at `(opcode 3, funct3 0, funct7 5)`. -/
def c4r1 : Model := ⟨"r1", 'R', 3, 0, 5, 1⟩
/-- Second R-form model at the same `(opcode 3, funct3 0, funct7 5)`. -/
def c4r2 : Model := ⟨"r2", 'R', 3, 0, 5, 1⟩

/-- R-form model at slot `(opcode 3, funct3 0)`. -/
def c5foo : Model := ⟨"foo", 'R', 3, 0, 0, 1⟩
/-- I-form model at the same slot `(opcode 3, funct3 0)`. -/
def c5bar : Model := ⟨"bar", 'I', 3, 0, 0, 1⟩
/-- I-form model at slot `(opcode 3, funct3 0)`, funct7 field 0. -/
def c5x : Model := ⟨"x", 'I', 3, 0, 0, 1⟩
/-- R-form model at the same slot, funct7 1 (sorts after `c5x`). -/
def c5y : Model := ⟨"y", 'R', 3, 0, 1, 1⟩

/-- I-form model at `(opcode 3, funct3 0)` — supplied first. -/
def c9a : Model := ⟨"a", 'I', 3, 0, 0, 1⟩
/-- I-form model at `(opcode 2, funct3 0)` — supplied second, sorts first. -/
def c9b : Model := ⟨"b", 'I', 2, 0, 0, 1⟩
/-- The decode structure `gen_decoder` produces for `[c9a, c9b]`. -/
def c9tree : List (Nat × List (Nat × F3Entry)) :=
  [(2, [(0, .leaf c9b)]), (3, [(0, .leaf c9a)])]

/-- Spec §8 scenario 1 and 3 combined: two I-form leaves under opcode 2 and
two R-form models sharing `(opcode 3, funct3 0)` with distinct funct7 —
a conflict-free batch, supplied out of order. -/
def c7batch : List Model :=
  [⟨"s1", 'I', 2, 1, 0, 1⟩, ⟨"s2", 'I', 2, 0, 0, 1⟩,
   ⟨"s3", 'R', 3, 0, 1, 1⟩, ⟨"s4", 'R', 3, 0, 0, 1⟩]
/-! ### Basic characterisation of the conflict scan -/

theorem check_opcodes_ok_iff (insts : List Instruction) (inst : Instruction) :
    check_opcodes insts inst = .ok () ↔ ∀ i2 ∈ insts, ¬ fires i2 inst := by
  induction insts with
  | nil => simp [check_opcodes]
  | cons inst2 rest ih =>
    by_cases hname : inst2.name = inst.name
    · simp only [check_opcodes, if_pos hname, ih, List.mem_cons]
      constructor
      · rintro h i2 (rfl | hmem)
        · exact fun hf => hf.1 hname
        · exact h i2 hmem
      · intro h i2 hmem
        exact h i2 (Or.inr hmem)
    · by_cases hR : inst2.form = 'R' ∧ (inst2.matchvalue &&& inst.maskvalue) = inst2.matchvalue
      · simp only [check_opcodes, if_neg hname, if_pos hR]
        constructor
        · intro h; exact absurd h (by simp)
        · intro h
          exact absurd ⟨hname, Or.inl hR⟩ (h inst2 (List.mem_cons_self _ _))
      · by_cases hI : inst2.form = 'I' ∧
            (inst2.matchvalue &&& inst.maskvalue) = (inst.matchvalue &&& inst2.maskvalue)
        · simp only [check_opcodes, if_neg hname, if_neg hR, if_pos hI]
          constructor
          · intro h; exact absurd h (by simp)
          · intro h
            exact absurd ⟨hname, Or.inr hI⟩ (h inst2 (List.mem_cons_self _ _))
        · simp only [check_opcodes, if_neg hname, if_neg hR, if_neg hI, ih, List.mem_cons]
          constructor
          · rintro h i2 (rfl | hmem)
            · rintro ⟨h1, h2 | h2⟩
              · exact hR h2
              · exact hI h2
            · exact h i2 hmem
          · intro h i2 hmem
            exact h i2 (Or.inr hmem)

theorem check_opcodes_error_msg (insts : List Instruction) (inst : Instruction)
    (e : OpcodeError) (h : check_opcodes insts inst = .error e) : e = ⟨opcodeErrorMsg⟩ := by
  induction insts with
  | nil => simp [check_opcodes] at h
  | cons inst2 rest ih =>
    by_cases hname : inst2.name = inst.name
    · exact ih (by simpa [check_opcodes, if_pos hname] using h)
    · by_cases hR : inst2.form = 'R' ∧ (inst2.matchvalue &&& inst.maskvalue) = inst2.matchvalue
      · simp only [check_opcodes, if_neg hname, if_pos hR, Except.error.injEq] at h
        exact h.symm
      · by_cases hI : inst2.form = 'I' ∧
            (inst2.matchvalue &&& inst.maskvalue) = (inst.matchvalue &&& inst2.maskvalue)
        · simp only [check_opcodes, if_neg hname, if_neg hR, if_pos hI,
            Except.error.injEq] at h
          exact h.symm
        · exact ih (by simpa [check_opcodes, if_neg hname, if_neg hR, if_neg hI] using h)

theorem checkAllAux_ok_iff (insts : List Instruction) (l : List Instruction) :
    checkAllAux insts l = .ok () ↔ ∀ inst ∈ l, check_opcodes insts inst = .ok () := by
  induction l with
  | nil => simp [checkAllAux]
  | cons inst rest ih =>
    cases hc : check_opcodes insts inst with
    | ok u =>
      cases u
      simp only [checkAllAux, hc, ih, List.mem_cons]
      constructor
      · rintro h i (rfl | hmem)
        · exact hc
        · exact h i hmem
      · intro h i hmem
        exact h i (Or.inr hmem)
    | error e =>
      simp only [checkAllAux, hc]
      constructor
      · intro h; exact absurd h (by simp)
      · intro h
        exact absurd (h inst (List.mem_cons_self _ _)) (by simp [hc])

theorem checkAll_ok_iff (insts : List Instruction) :
    checkAll insts = .ok () ↔ ∀ inst ∈ insts, ∀ i2 ∈ insts, ¬ fires i2 inst := by
  unfold checkAll
  rw [checkAllAux_ok_iff]
  constructor
  · intro h inst hmem
    exact (check_opcodes_ok_iff insts inst).mp (h inst hmem)
  · intro h inst hmem
    exact (check_opcodes_ok_iff insts inst).mpr (h inst hmem)

theorem checkAllAux_error_msg (insts l : List Instruction) (e : OpcodeError)
    (h : checkAllAux insts l = .error e) : e = ⟨opcodeErrorMsg⟩ := by
  induction l with
  | nil => simp [checkAllAux] at h
  | cons inst rest ih =>
    cases hc : check_opcodes insts inst with
    | ok u =>
      cases u
      exact ih (by simpa [checkAllAux, hc] using h)
    | error e' =>
      simp only [checkAllAux, hc, Except.error.injEq] at h
      exact h ▸ check_opcodes_error_msg insts inst e' hc


/-! ### Helper lemmas on instruction generation and sorting -/

theorem buildInsts_short (models : List Model) :
    ∀ mks mts : List Nat, mks.length < models.length →
      buildInsts models mks mts = .error .indexError := by
  induction models with
  | nil => intro mks mts h; exact absurd h (Nat.not_lt_zero _)
  | cons m rest ih =>
    intro mks mts h
    cases mks with
    | nil =>
      cases mts with
      | nil => rfl
      | cons mt mts' => rfl
    | cons mk mks' =>
      cases mts with
      | nil => rfl
      | cons mt mts' =>
        have : buildInsts rest mks' mts' = .error .indexError :=
          ih mks' mts' (Nat.lt_of_succ_lt_succ h)
        simp [buildInsts, this]

theorem insertModel_perm (m : Model) (l : List Model) :
    (insertModel m l).Perm (m :: l) := by
  induction l with
  | nil => exact List.Perm.refl _
  | cons x xs ih =>
    by_cases h : modelKeyLe m x = true
    · simp [insertModel, h]
    · simp only [insertModel, h, if_neg]
      exact (ih.cons x).trans (List.Perm.swap m x xs)

theorem sortModels_perm (models : List Model) : (sortModels models).Perm models := by
  induction models with
  | nil => exact List.Perm.refl _
  | cons m rest ih =>
    exact (insertModel_perm m (sortModels rest)).trans (ih.cons m)

/-! ### Claim theorems: conflict detector -/

/-- C1, counterexample: for the pair `(c1a, c1b)` with `c1a` of form `'R'`
and distinct names, the conflict scan over `[c1a, c1b]` raises the overlap
error, yet the claimed test `(b.match & a.mask) == a.match` is false — so
"overlap is declared exactly when `(b.match & a.mask) == a.match`" fails on
the code. -/
theorem C1_counterexample :
    c1a.form = 'R' ∧ c1a.name ≠ c1b.name ∧ pairConflict c1a c1b = true ∧
      (c1b.matchvalue &&& c1a.maskvalue) ≠ c1a.matchvalue := by decide

/-- C1, amended: when instruction `b` is checked against a working set
containing an `'R'`-form instruction `a` with a different name, an overlap is
declared for that entry exactly when `(a.match & b.mask) == a.match` — the
code masks `a`'s match value with `b`'s mask and compares against `a`'s
match (extensions.py:85), not `(b.match & a.mask) == a.match`. -/
theorem C1_amended (a b : Instruction) (hR : a.form = 'R') (hname : a.name ≠ b.name) :
    check_opcodes [a] b = .error ⟨opcodeErrorMsg⟩ ↔
      (a.matchvalue &&& b.maskvalue) = a.matchvalue := by
  have hne : ¬ a.name = b.name := hname
  by_cases ht : (a.matchvalue &&& b.maskvalue) = a.matchvalue
  · simp [check_opcodes, hne, hR, ht]
  · simp [check_opcodes, hne, hR, ht]

/-- C1, witness: the amended rule evaluated at the concrete pair
`(c1wa, c1wb)`; the test holds there and the error is raised. -/
theorem C1_witness :
    (check_opcodes [c1wa] c1wb = .error ⟨opcodeErrorMsg⟩ ↔
      (c1wa.matchvalue &&& c1wb.maskvalue) = c1wa.matchvalue) ∧
    check_opcodes [c1wa] c1wb = .error ⟨opcodeErrorMsg⟩ :=
  ⟨C1_amended c1wa c1wb (by decide) (by decide), by decide⟩

/-- C2, counterexample: `c2a` is `'I'`-form, `c2b` is `'R'`-form, the
symmetric test `(b.match & a.mask) == (a.match & b.mask)` is false for the
pair, yet the scan over `[c2a, c2b]` still declares an overlap (through the
`'R'` rule applied when `c2a` is checked against `c2b`) — so the pair verdict
is not decided by the symmetric test alone. -/
theorem C2_counterexample :
    c2a.form = 'I' ∧ c2b.form = 'R' ∧ c2a.name ≠ c2b.name ∧
      pairConflict c2a c2b = true ∧
      (c2b.matchvalue &&& c2a.maskvalue) ≠ (c2a.matchvalue &&& c2b.maskvalue) := by decide

/-- C2, amended: the symmetric test governs exactly the directed checks
against an `'I'`-form instruction: checking any `b` against a working set
containing an `'I'`-form `a` with a different name declares an overlap for
that entry exactly when `(a.match & b.mask) == (b.match & a.mask)`
(extensions.py:97-99).  When the partner is `'R'`-form, the reverse directed
check applies the `'R'` rule as well, so the pair verdict can exceed the
symmetric test (see the counterexample). -/
theorem C2_amended (a b : Instruction) (hI : a.form = 'I') (hname : a.name ≠ b.name) :
    check_opcodes [a] b = .error ⟨opcodeErrorMsg⟩ ↔
      (a.matchvalue &&& b.maskvalue) = (b.matchvalue &&& a.maskvalue) := by
  have hne : ¬ a.name = b.name := hname
  have hnr : ¬ a.form = 'R' := by rw [hI]; decide
  by_cases ht : (a.matchvalue &&& b.maskvalue) = (b.matchvalue &&& a.maskvalue)
  · simp [check_opcodes, hne, hI, hnr, ht]
  · simp [check_opcodes, hne, hI, hnr, ht]

/-- C2, witness: the amended rule evaluated at the concrete pair
`(c2wa, c2wb)` of bit-identical `'I'`-form instructions; the symmetric test
holds there and the error is raised. -/
theorem C2_witness :
    (check_opcodes [c2wa] c2wb = .error ⟨opcodeErrorMsg⟩ ↔
      (c2wa.matchvalue &&& c2wb.maskvalue) = (c2wb.matchvalue &&& c2wa.maskvalue)) ∧
    check_opcodes [c2wa] c2wb = .error ⟨opcodeErrorMsg⟩ :=
  ⟨C2_amended c2wa c2wb (by decide) (by decide), by decide⟩

/-- C3, counterexample: checking `c3b` against the set `{c3a}` declares an
overlap, while checking `c3a` against `{c3b}` validates — a single directed
check is not symmetric in the two instructions. -/
theorem C3_counterexample :
    c3a.name ≠ c3b.name ∧
    check_opcodes [c3a] c3b = .error ⟨opcodeErrorMsg⟩ ∧
    check_opcodes [c3b] c3a = .ok () := by decide

/-- C3, amended: the batch-level verdict is order-independent: because the
scan loop (extensions.py:182-183) checks every instruction against the whole
working set, the scan over any permutation of the working set succeeds
exactly when the scan over the original does — even though a single directed
`check_opcodes` call is not symmetric (see the counterexample). -/
theorem C3_amended (l l' : List Instruction) (h : l.Perm l') :
    checkAll l = .ok () ↔ checkAll l' = .ok () := by
  rw [checkAll_ok_iff, checkAll_ok_iff]
  constructor
  · intro hk inst hm i2 hm2
    exact hk inst (h.mem_iff.mpr hm) i2 (h.mem_iff.mpr hm2)
  · intro hk inst hm i2 hm2
    exact hk inst (h.mem_iff.mp hm) i2 (h.mem_iff.mp hm2)

/-- C3, witness: the amended order-independence at the concrete
two-instruction working set `[c3wa, c3wb]` and its transposition. -/
theorem C3_witness :
    checkAll [c3wa, c3wb] = .ok () ↔ checkAll [c3wb, c3wa] = .ok () :=
  C3_amended [c3wa, c3wb] [c3wb, c3wa] (List.Perm.swap c3wb c3wa [])

/-- C8, counterexample: the raised error names neither instruction and
carries no bit patterns — two conflicts between entirely different
instruction pairs produce the very same error value, the fixed-message
`OpcodeError` (the names and mask/match values at extensions.py:86-95 go to
the logger, not into the exception). -/
theorem C8_counterexample :
    checkAll [c8a1, c8b1] = checkAll [c8a2, c8b2] ∧
    checkAll [c8a1, c8b1] = .error ⟨opcodeErrorMsg⟩ ∧
    c8a1 ≠ c8a2 ∧ c8b1 ≠ c8b2 := by decide

/-- C8, amended: the scan fails exactly when some pair of the working set
fires an overlap rule, it stops at the first such pair (the `Except` fold
returns on the first raise), and the error it raises is always the
fixed-message `OpcodeError 'Function opcode could not be generated'`,
carrying no instruction names and no mask/match values. -/
theorem C8_amended (insts : List Instruction) :
    checkAll insts = .error ⟨opcodeErrorMsg⟩ ↔
      ∃ inst ∈ insts, ∃ i2 ∈ insts, fires i2 inst := by
  constructor
  · intro h
    by_contra hno
    push_neg at hno
    have hok : checkAll insts = .ok () := (checkAll_ok_iff insts).mpr hno
    rw [hok] at h
    exact absurd h (by simp)
  · rintro ⟨inst, hm, i2, hm2, hf⟩
    cases hres : checkAll insts with
    | ok u =>
      cases u
      exact absurd hf ((checkAll_ok_iff insts).mp hres inst hm i2 hm2)
    | error e =>
      have he : e = ⟨opcodeErrorMsg⟩ := checkAllAux_error_msg insts insts e hres
      rw [he]

/-- C10: in `check_opcodes`, an overlap can only be declared by a working-set
entry whose form is `'R'` or `'I'` (extensions.py:84, 97); checking any
instruction against a working set whose entries all have some other form
always validates. -/
theorem C10_confirmed (insts : List Instruction) (inst : Instruction)
    (h : ∀ i2 ∈ insts, i2.form ≠ 'R' ∧ i2.form ≠ 'I') :
    check_opcodes insts inst = .ok () := by
  rw [check_opcodes_ok_iff]
  intro i2 hm
  rintro ⟨hn, ⟨hf, _⟩ | ⟨hf, _⟩⟩
  · exact (h i2 hm).1 hf
  · exact (h i2 hm).2 hf

/-- C10, witness: checking `c10b` against `[c10a]`, where `c10a` has form
`'F'` and carries mask and match values bit-identical to `c10b`'s, validates;
the full scan over the pair validates as well. -/
theorem C10_witness :
    check_opcodes [c10a] c10b = .ok () ∧ checkAll [c10a, c10b] = .ok () :=
  ⟨C10_confirmed [c10a] c10b (by decide), by decide⟩

/-! ### Claim theorems: instruction generation -/

/-- C6, counterexample: a resolver result with more `(mask, match)` pairs
than models does not fail — `gen_instructions` silently ignores the extra
pair and succeeds (the loop at extensions.py:172 only iterates over
`range(0, len(self._models))`, and no length comparison against the model
list exists). -/
theorem C6_counterexample :
    gen_instructions [c6m] (some ([5, 6], [1, 2])) =
      .ok [⟨c6m.cycles, c6m.form, 5, 1, c6m.name⟩] ∧
    ([5, 6] : List Nat).length ≠ ([c6m] : List Model).length := by decide

/-- C6, amended: a tooling failure of the resolver (empty stdout or nonempty
stderr, extensions.py:139) aborts the run with the `OpcodeError`; a resolver
result with fewer pairs than models aborts it with an uncaught python
`IndexError` at `masks[i]` (extensions.py:175), producing no instruction
list; a result with more pairs than models is silently truncated (see the
counterexample). -/
theorem C6_amended :
    (∀ models : List Model,
      gen_instructions models none = .error (.opcodeError opcodeErrorMsg)) ∧
    (∀ (models : List Model) (maskList matchList : List Nat),
      maskList.length = matchList.length → maskList.length < models.length →
      gen_instructions models (some (maskList, matchList)) = .error .indexError) := by
  constructor
  · intro models; rfl
  · intro models maskList matchList hlen hshort
    have hb := buildInsts_short models maskList matchList hshort
    simp [gen_instructions, hlen, hb]

/-- C6, witness: the amended behaviour at concrete inputs — a tooling
failure aborts with the `OpcodeError`, and an empty resolver result against
one model aborts with the `IndexError`. -/
theorem C6_witness :
    gen_instructions [c6m] none = .error (.opcodeError opcodeErrorMsg) ∧
    gen_instructions [c6m] (some ([], [])) = .error .indexError :=
  ⟨C6_amended.1 [c6m], C6_amended.2 [c6m] [] [] rfl (by decide)⟩

/-! ### Claim theorems: decode-tree synthesis errors and frame -/

/-- C4: spec §4.3/§8 require a `SlotCollisionError` for a doubly-occupied
slot, and spec §9 records that the upstream code instead drops data silently.
The code confirms the bug: two I-form models at the same
`(opcode 2, funct3 0)` slot synthesise successfully, the later model
silently overwriting the slot (`funct3[mdl.funct3] = mdl`, gem5.py:119), and
two R-form models with identical `(opcode, funct3, funct7)` synthesise
successfully with the slot silently duplicated inside the funct7 group
(gem5.py:122). -/
theorem C4_code_bug :
    gen_decoder [c4foo, c4bar] =
      .ok ([c4foo, c4bar], [(2, [(0, .leaf c4bar)])]) ∧
    gen_decoder [c4r1, c4r2] =
      .ok ([c4r1, c4r2], [(3, [(0, .group [c4r1, c4r2])])]) := by decide

/-- C5: spec §4.3/§8 require a `SlotCollisionError` for a mixed-format slot;
spec §9 records that the upstream code instead silently drops data.  The
code confirms the bug: an R-form and an I-form model at the same
`(opcode 3, funct3 0)` slot synthesise successfully with the R-form model
silently dropped (the I leaf overwrites the R group, gem5.py:119); in the
opposite processing order the run dies with a raw python `AttributeError`
(`.append` on a model, gem5.py:122), not a structured synthesis error. -/
theorem C5_code_bug :
    gen_decoder [c5foo, c5bar] =
      .ok ([c5foo, c5bar], [(3, [(0, .leaf c5bar)])]) ∧
    gen_decoder [c5x, c5y] = .error .attributeError := by decide

/-- C9, counterexample: `gen_decoder` sorts `self._models` in place
(gem5.py:106), so the caller-visible model list after synthesis is the
sorted `[c9b, c9a]`, not the supplied `[c9a, c9b]` — the run is not free of
caller-visible mutation. -/
theorem C9_counterexample :
    gen_decoder [c9a, c9b] = .ok ([c9b, c9a], c9tree) ∧
    [c9b, c9a] ≠ [c9a, c9b] := by decide

/-- C9, amended: synthesis has exactly one caller-visible effect on the
model list: it is reordered in place into the
`(opcode, funct3, funct7)`-sorted permutation of itself.  The list after a
successful run is `sortModels models` — the same elements (a permutation of
the input), though not necessarily in the supplied order. -/
theorem C9_amended (models : List Model)
    (out : List Model × List (Nat × List (Nat × F3Entry)))
    (h : gen_decoder models = .ok out) :
    out.1 = sortModels models ∧ out.1.Perm models := by
  unfold gen_decoder at h
  cases hg : genTree (buildOpcDict (sortModels models)) with
  | ok tree =>
    rw [hg] at h
    cases h
    exact ⟨rfl, sortModels_perm models⟩
  | error e =>
    rw [hg] at h
    exact absurd h (by simp)

/-- C9, witness: the amended statement applied to the concrete run on
`[c9a, c9b]`. -/
theorem C9_witness :
    (([c9b, c9a], c9tree) : List Model × List (Nat × List (Nat × F3Entry))).1 =
      sortModels [c9a, c9b] ∧
    (([c9b, c9a], c9tree) : List Model × List (Nat × List (Nat × F3Entry))).1.Perm
      [c9a, c9b] :=
  C9_amended [c9a, c9b] ([c9b, c9a], c9tree) (by decide)

/-! ### Dict lemmas

Properties of the insertion-ordered association-list model of python dicts,
generic in the value type. -/

theorem dictGet_dictSet {α : Type} (D : List (Nat × α)) (k k' : Nat) (v : α) :
    dictGet (dictSet D k v) k' = if k' = k then some v else dictGet D k' := by
  induction D with
  | nil =>
    simp only [dictSet, dictGet]
    split_ifs <;> first | rfl | omega
  | cons e rest ih =>
    obtain ⟨ke, ve⟩ := e
    simp only [dictSet]
    by_cases hk : ke = k
    · rw [if_pos hk]
      subst hk
      have h1 : dictGet ((ke, v) :: rest) k' =
          if ke = k' then some v else dictGet rest k' := rfl
      have h2 : dictGet ((ke, ve) :: rest) k' =
          if ke = k' then some ve else dictGet rest k' := rfl
      rw [h1, h2]
      split_ifs <;> first | rfl | omega
    · rw [if_neg hk]
      have h1 : dictGet ((ke, ve) :: dictSet rest k v) k' =
          if ke = k' then some ve else dictGet (dictSet rest k v) k' := rfl
      have h2 : dictGet ((ke, ve) :: rest) k' =
          if ke = k' then some ve else dictGet rest k' := rfl
      rw [h1, h2, ih]
      split_ifs <;> first | rfl | omega

theorem dictSet_of_get_none {α : Type} (D : List (Nat × α)) (k : Nat) (v : α)
    (h : dictGet D k = none) : dictSet D k v = D ++ [(k, v)] := by
  induction D with
  | nil => rfl
  | cons e rest ih =>
    obtain ⟨ke, ve⟩ := e
    by_cases hk : ke = k
    · subst hk
      simp [dictGet] at h
    · simp only [dictGet, if_neg hk] at h
      simp [dictSet, hk, ih h]

theorem dictGet_append {α : Type} (D₁ D₂ : List (Nat × α)) (k : Nat) :
    dictGet (D₁ ++ D₂) k =
      match dictGet D₁ k with
      | some v => some v
      | none => dictGet D₂ k := by
  induction D₁ with
  | nil => simp [dictGet]
  | cons e rest ih =>
    obtain ⟨ke, ve⟩ := e
    by_cases hk : ke = k
    · simp [dictGet, hk]
    · simp [dictGet, hk, ih]

theorem dictSet_append_last {α : Type} (D₁ : List (Nat × α)) (k : Nat) (w v : α)
    (h : dictGet D₁ k = none) : dictSet (D₁ ++ [(k, w)]) k v = D₁ ++ [(k, v)] := by
  induction D₁ with
  | nil => simp [dictSet]
  | cons e rest ih =>
    obtain ⟨ke, ve⟩ := e
    by_cases hk : ke = k
    · subst hk; simp [dictGet] at h
    · simp only [dictGet, if_neg hk] at h
      simp [dictSet, hk, ih h]

theorem dictGet_eq_none_iff {α : Type} (D : List (Nat × α)) (k : Nat) :
    dictGet D k = none ↔ k ∉ D.map Prod.fst := by
  induction D with
  | nil => simp [dictGet]
  | cons e rest ih =>
    obtain ⟨ke, ve⟩ := e
    simp only [dictGet, List.map_cons, List.mem_cons]
    split_ifs with hk
    · subst hk; simp
    · rw [ih]
      constructor
      · intro h hc
        rcases hc with hc | hc
        · exact hk hc.symm
        · exact h hc
      · intro h hc
        exact h (Or.inr hc)

theorem dictSet_keys_of_get_some {α : Type} (D : List (Nat × α)) (k : Nat) (w v : α)
    (h : dictGet D k = some w) :
    (dictSet D k v).map Prod.fst = D.map Prod.fst := by
  induction D with
  | nil => simp [dictGet] at h
  | cons e rest ih =>
    obtain ⟨ke, ve⟩ := e
    by_cases hk : ke = k
    · simp [dictSet, hk]
    · simp only [dictGet, if_neg hk] at h
      simp [dictSet, hk, ih h]

theorem dictGet_of_mem {α : Type} (D : List (Nat × α)) (k : Nat) (ms : α)
    (hmem : (k, ms) ∈ D) (hnd : (D.map Prod.fst).Nodup) : dictGet D k = some ms := by
  induction D with
  | nil => simp at hmem
  | cons e rest ih =>
    obtain ⟨ke, ve⟩ := e
    simp only [List.map_cons, List.nodup_cons] at hnd
    rcases List.mem_cons.mp hmem with heq | htail
    · obtain ⟨h1, h2⟩ := Prod.mk.injEq .. ▸ heq
      simp [dictGet, h1.symm, h2]
    · by_cases hk : ke = k
      · subst hk
        exact absurd (List.mem_map.mpr ⟨(ke, ms), htail, rfl⟩) hnd.1
      · simp [dictGet, hk, ih htail hnd.2]

/-! ### Sorting lemmas: the in-place stable sort of gem5.py:106 -/

theorem modelKeyLe_total (x y : Model) :
    modelKeyLe x y = true ∨ modelKeyLe y x = true := by
  simp only [modelKeyLe, decide_eq_true_eq]
  omega

theorem modelKeyLe_trans (x y z : Model) (hxy : modelKeyLe x y = true)
    (hyz : modelKeyLe y z = true) : modelKeyLe x z = true := by
  simp only [modelKeyLe, decide_eq_true_eq] at hxy hyz ⊢
  omega

theorem insertModel_pairwise (m : Model) (l : List Model)
    (h : l.Pairwise (fun x y => modelKeyLe x y = true)) :
    (insertModel m l).Pairwise (fun x y => modelKeyLe x y = true) := by
  induction l with
  | nil => simp [insertModel]
  | cons x xs ih =>
    rcases List.pairwise_cons.mp h with ⟨hx, hxs⟩
    by_cases hle : modelKeyLe m x = true
    · rw [insertModel, if_pos hle]
      refine List.pairwise_cons.mpr ⟨?_, h⟩
      intro b hb
      rcases List.mem_cons.mp hb with rfl | hb
      · exact hle
      · exact modelKeyLe_trans m x b hle (hx b hb)
    · rw [insertModel, if_neg hle]
      have hxm : modelKeyLe x m = true := (modelKeyLe_total m x).resolve_left hle
      refine List.pairwise_cons.mpr ⟨?_, ih hxs⟩
      intro b hb
      have : b ∈ m :: xs := (insertModel_perm m xs).mem_iff.mp hb
      rcases List.mem_cons.mp this with rfl | hb'
      · exact hxm
      · exact hx b hb'

theorem sortModels_sorted (models : List Model) :
    (sortModels models).Pairwise (fun x y => modelKeyLe x y = true) := by
  induction models with
  | nil => simp [sortModels]
  | cons m rest ih => exact insertModel_pairwise m (sortModels rest) ih

theorem sortModels_of_sorted (l : List Model)
    (h : l.Pairwise (fun x y => modelKeyLe x y = true)) : sortModels l = l := by
  induction l with
  | nil => rfl
  | cons m rest ih =>
    rcases List.pairwise_cons.mp h with ⟨hm, hrest⟩
    rw [sortModels, ih hrest]
    cases rest with
    | nil => rfl
    | cons x xs =>
      rw [insertModel, if_pos (hm x (List.mem_cons_self x xs))]

/-! ### Opcode grouping (gem5.py:110-114) -/

theorem opcStep_get (D : List (Nat × List Model)) (m : Model) (k : Nat) :
    dictGet (opcStep D m) k =
      if k = m.opc then some ((dictGet D m.opc).getD [] ++ [m]) else dictGet D k := by
  unfold opcStep
  cases hg : dictGet D m.opc with
  | some ms => rw [dictGet_dictSet]; simp [hg]
  | none => rw [dictGet_dictSet]; simp [hg]

theorem opcStep_keys (D : List (Nat × List Model)) (m : Model) :
    (opcStep D m).map Prod.fst =
      if (dictGet D m.opc).isSome then D.map Prod.fst
      else D.map Prod.fst ++ [m.opc] := by
  unfold opcStep
  cases hg : dictGet D m.opc with
  | some ms =>
    rw [dictSet_keys_of_get_some D m.opc ms _ hg]
    rfl
  | none =>
    rw [dictSet_of_get_none D m.opc _ hg]
    simp

theorem opcFold_keys_nodup (s : List Model) :
    ∀ D : List (Nat × List Model), (D.map Prod.fst).Nodup →
      ((List.foldl opcStep D s).map Prod.fst).Nodup := by
  induction s with
  | nil => intro D h; exact h
  | cons m rest ih =>
    intro D h
    rw [List.foldl_cons]
    refine ih (opcStep D m) ?_
    rw [opcStep_keys]
    cases hg : dictGet D m.opc with
    | some ms => simpa using h
    | none =>
      have hnm : m.opc ∉ D.map Prod.fst := (dictGet_eq_none_iff D m.opc).mp hg
      simp only [Option.isSome_none, Bool.false_eq_true, if_false]
      rw [List.nodup_append]
      refine ⟨h, List.nodup_singleton _, ?_⟩
      intro a ha hb
      rw [List.mem_singleton] at hb
      subst hb
      exact hnm ha

theorem opcFold_bucket (s : List Model) :
    ∀ (D : List (Nat × List Model)) (k : Nat),
      (dictGet (List.foldl opcStep D s) k).getD [] =
        (dictGet D k).getD [] ++ s.filter (fun m => m.opc == k) := by
  induction s with
  | nil => intro D k; simp
  | cons m rest ih =>
    intro D k
    rw [List.foldl_cons, ih, List.filter_cons]
    by_cases hk : m.opc = k
    · subst hk
      rw [opcStep_get]
      simp
    · rw [opcStep_get, if_neg (fun hc : k = m.opc => hk hc.symm)]
      simp [hk]

theorem buildOpcDict_mem (s : List Model) (k : Nat) (ms : List Model)
    (hmem : (k, ms) ∈ buildOpcDict s) :
    ms = s.filter (fun m => m.opc == k) := by
  have hnd : ((buildOpcDict s).map Prod.fst).Nodup :=
    opcFold_keys_nodup s [] (by simp)
  have hget : dictGet (buildOpcDict s) k = some ms :=
    dictGet_of_mem _ k ms hmem hnd
  unfold buildOpcDict at hget
  have := opcFold_bucket s [] k
  rw [hget] at this
  simpa [dictGet] using this

theorem opcFold_concat (s : List Model) :
    ∀ (Dfix : List (Nat × List Model)) (k : Nat) (ms : List Model),
      (∀ m ∈ s, dictGet Dfix m.opc = none) →
      (∀ m ∈ s, k ≤ m.opc) →
      s.Pairwise (fun x y => x.opc ≤ y.opc) →
      dictGet Dfix k = none →
      concatBuckets (List.foldl opcStep (Dfix ++ [(k, ms)]) s) =
        concatBuckets Dfix ++ ms ++ s := by
  induction s with
  | nil =>
    intro Dfix k ms _ _ _ _
    simp [concatBuckets]
  | cons m rest ih =>
    intro Dfix k ms h1 h2 h3 h4
    rw [List.foldl_cons]
    rcases List.pairwise_cons.mp h3 with ⟨hm, hrest⟩
    have hgetfix : dictGet Dfix m.opc = none := h1 m (List.mem_cons_self m rest)
    by_cases hk : m.opc = k
    · have hget : dictGet (Dfix ++ [(k, ms)]) m.opc = some ms := by
        rw [dictGet_append, hgetfix, hk]
        simp [dictGet]
      have hstep : opcStep (Dfix ++ [(k, ms)]) m = Dfix ++ [(k, ms ++ [m])] := by
        unfold opcStep
        rw [hget]
        show dictSet (Dfix ++ [(k, ms)]) m.opc (ms ++ [m]) = Dfix ++ [(k, ms ++ [m])]
        rw [hk, dictSet_append_last Dfix k ms _ h4]
      rw [hstep]
      have hrec := ih Dfix k (ms ++ [m])
        (fun m' hm' => h1 m' (List.mem_cons_of_mem m hm'))
        (fun m' hm' => h2 m' (List.mem_cons_of_mem m hm'))
        hrest h4
      rw [hrec]
      simp
    · have hne : ¬ k = m.opc := fun hc => hk hc.symm
      have hget : dictGet (Dfix ++ [(k, ms)]) m.opc = none := by
        rw [dictGet_append, hgetfix]
        simp [dictGet, hne]
      have hstep : opcStep (Dfix ++ [(k, ms)]) m =
          (Dfix ++ [(k, ms)]) ++ [(m.opc, [m])] := by
        unfold opcStep
        rw [hget]
        show dictSet (Dfix ++ [(k, ms)]) m.opc [m] = (Dfix ++ [(k, ms)]) ++ [(m.opc, [m])]
        rw [dictSet_of_get_none _ _ _ hget]
      rw [hstep]
      have hklt : k < m.opc :=
        lt_of_le_of_ne (h2 m (List.mem_cons_self m rest)) (fun hc => hk hc.symm)
      have hrec := ih (Dfix ++ [(k, ms)]) m.opc [m]
        (fun m' hm' => by
          rw [dictGet_append, h1 m' (List.mem_cons_of_mem m hm')]
          have hlt : k < m'.opc := lt_of_lt_of_le hklt (hm m' hm')
          simp [dictGet, Nat.ne_of_lt hlt])
        (fun m' hm' => hm m' hm')
        hrest
        hget
      rw [hrec]
      simp [concatBuckets]

theorem buildOpcDict_concat (s : List Model)
    (hs : s.Pairwise (fun x y => x.opc ≤ y.opc)) :
    concatBuckets (buildOpcDict s) = s := by
  cases s with
  | nil => rfl
  | cons m rest =>
    unfold buildOpcDict
    rw [List.foldl_cons]
    have hstep : opcStep [] m = [] ++ [(m.opc, [m])] := rfl
    rw [hstep]
    rcases List.pairwise_cons.mp hs with ⟨hm, hrest⟩
    have hrec := opcFold_concat rest [] m.opc [m]
      (fun m' _ => by simp [dictGet])
      (fun m' hm' => hm m' hm')
      hrest
      (by simp [dictGet])
    rw [hrec]
    simp [concatBuckets]

/-! ### Funct3 grouping of one bucket (gem5.py:116-124) -/

theorem f3Fold_ok (rest : List Model) :
    ∀ (Dfix : List (Nat × F3Entry)) (k : Nat) (e : F3Entry),
      (∀ m ∈ rest, dictGet Dfix m.funct3 = none) →
      (∀ m ∈ rest, k ≤ m.funct3) →
      rest.Pairwise (fun x y => x.funct3 ≤ y.funct3) →
      rest.Pairwise (fun x y => x.funct3 = y.funct3 → x.form ≠ 'I' ∧ y.form ≠ 'I') →
      dictGet Dfix k = none →
      (∀ m ∈ rest, m.funct3 = k → m.form ≠ 'I' ∧ ∃ gs, e = .group gs) →
      ∃ D', buildF3DictAux (Dfix ++ [(k, e)]) rest = .ok D' ∧
        flattenF3 D' = flattenF3 (Dfix ++ [(k, e)]) ++ rest := by
  induction rest with
  | nil =>
    intro Dfix k e _ _ _ _ _ _
    exact ⟨Dfix ++ [(k, e)], rfl, by simp⟩
  | cons m rest ih =>
    intro Dfix k e h1 h2 hsort hcompat h4 h5
    rcases List.pairwise_cons.mp hsort with ⟨hmle, hsort'⟩
    rcases List.pairwise_cons.mp hcompat with ⟨hmc, hcompat'⟩
    have hgetfix : dictGet Dfix m.funct3 = none := h1 m (List.mem_cons_self m rest)
    by_cases hk : m.funct3 = k
    · rcases h5 m (List.mem_cons_self m rest) hk with ⟨hmI, gs, rfl⟩
      have hget : dictGet (Dfix ++ [(k, F3Entry.group gs)]) m.funct3 =
          some (.group gs) := by
        rw [dictGet_append, hgetfix, hk]
        simp [dictGet]
      have hstep : f3Step (Dfix ++ [(k, F3Entry.group gs)]) m =
          .ok (Dfix ++ [(k, F3Entry.group (gs ++ [m]))]) := by
        unfold f3Step
        rw [if_neg hmI, hget]
        show Except.ok (dictSet (Dfix ++ [(k, F3Entry.group gs)]) m.funct3
          (.group (gs ++ [m]))) = _
        rw [hk, dictSet_append_last Dfix k _ _ h4]
      have hrun : buildF3DictAux (Dfix ++ [(k, F3Entry.group gs)]) (m :: rest) =
          buildF3DictAux (Dfix ++ [(k, F3Entry.group (gs ++ [m]))]) rest := by
        simp only [buildF3DictAux, hstep]
      rcases ih Dfix k (.group (gs ++ [m]))
        (fun m' hm' => h1 m' (List.mem_cons_of_mem m hm'))
        (fun m' hm' => h2 m' (List.mem_cons_of_mem m hm'))
        hsort' hcompat' h4
        (fun m' hm' hk' =>
          ⟨((h5 m' (List.mem_cons_of_mem m hm')) hk').1, gs ++ [m], rfl⟩)
        with ⟨D', heq, hflat⟩
      refine ⟨D', hrun.trans heq, ?_⟩
      rw [hflat]
      simp [flattenF3, flattenEntry, List.append_assoc]
    · have hkle : k ≤ m.funct3 := h2 m (List.mem_cons_self m rest)
      have hklt : k < m.funct3 := lt_of_le_of_ne hkle (fun hc => hk hc.symm)
      have hne : ¬ k = m.funct3 := fun hc => hk hc.symm
      have hget : dictGet (Dfix ++ [(k, e)]) m.funct3 = none := by
        rw [dictGet_append, hgetfix]
        simp [dictGet, hne]
      have h1' : ∀ m' ∈ rest, dictGet (Dfix ++ [(k, e)]) m'.funct3 = none := by
        intro m' hm'
        rw [dictGet_append, h1 m' (List.mem_cons_of_mem m hm')]
        have hlt : k < m'.funct3 := lt_of_lt_of_le hklt (hmle m' hm')
        simp [dictGet, Nat.ne_of_lt hlt]
      by_cases hI : m.form = 'I'
      · have hstep : f3Step (Dfix ++ [(k, e)]) m =
            .ok ((Dfix ++ [(k, e)]) ++ [(m.funct3, .leaf m)]) := by
          unfold f3Step
          rw [if_pos hI, dictSet_of_get_none _ _ _ hget]
        have hrun : buildF3DictAux (Dfix ++ [(k, e)]) (m :: rest) =
            buildF3DictAux ((Dfix ++ [(k, e)]) ++ [(m.funct3, .leaf m)]) rest := by
          simp only [buildF3DictAux, hstep]
        rcases ih (Dfix ++ [(k, e)]) m.funct3 (.leaf m)
          h1'
          (fun m' hm' => hmle m' hm')
          hsort' hcompat' hget
          (fun m' hm' hk' =>
            absurd hI (hmc m' hm' hk'.symm).1)
          with ⟨D', heq, hflat⟩
        refine ⟨D', hrun.trans heq, ?_⟩
        rw [hflat]
        simp [flattenF3, flattenEntry, List.append_assoc]
      · have hstep : f3Step (Dfix ++ [(k, e)]) m =
            .ok ((Dfix ++ [(k, e)]) ++ [(m.funct3, .group [m])]) := by
          unfold f3Step
          rw [if_neg hI, hget]
          show Except.ok (dictSet (Dfix ++ [(k, e)]) m.funct3 (.group [m])) = _
          rw [dictSet_of_get_none _ _ _ hget]
        have hrun : buildF3DictAux (Dfix ++ [(k, e)]) (m :: rest) =
            buildF3DictAux ((Dfix ++ [(k, e)]) ++ [(m.funct3, .group [m])]) rest := by
          simp only [buildF3DictAux, hstep]
        rcases ih (Dfix ++ [(k, e)]) m.funct3 (.group [m])
          h1'
          (fun m' hm' => hmle m' hm')
          hsort' hcompat' hget
          (fun m' hm' hk' =>
            ⟨(hmc m' hm' hk'.symm).2, [m], rfl⟩)
          with ⟨D', heq, hflat⟩
        refine ⟨D', hrun.trans heq, ?_⟩
        rw [hflat]
        simp [flattenF3, flattenEntry, List.append_assoc]

theorem buildF3Dict_ok (b : List Model)
    (hsort : b.Pairwise (fun x y => x.funct3 ≤ y.funct3))
    (hcompat : b.Pairwise (fun x y => x.funct3 = y.funct3 → x.form ≠ 'I' ∧ y.form ≠ 'I')) :
    ∃ D', buildF3Dict b = .ok D' ∧ flattenF3 D' = b := by
  cases b with
  | nil => exact ⟨[], rfl, rfl⟩
  | cons m rest =>
    rcases List.pairwise_cons.mp hsort with ⟨hmle, hsort'⟩
    rcases List.pairwise_cons.mp hcompat with ⟨hmc, hcompat'⟩
    unfold buildF3Dict
    by_cases hI : m.form = 'I'
    · have hstep : f3Step [] m = .ok ([] ++ [(m.funct3, .leaf m)]) := by
        unfold f3Step
        rw [if_pos hI]
        rfl
      have hrun : buildF3DictAux [] (m :: rest) =
          buildF3DictAux ([] ++ [(m.funct3, .leaf m)]) rest := by
        simp only [buildF3DictAux, hstep]
      rcases f3Fold_ok rest [] m.funct3 (.leaf m)
        (fun m' _ => by simp [dictGet])
        (fun m' hm' => hmle m' hm')
        hsort' hcompat'
        (by simp [dictGet])
        (fun m' hm' hk' => absurd hI (hmc m' hm' hk'.symm).1)
        with ⟨D', heq, hflat⟩
      refine ⟨D', hrun.trans heq, ?_⟩
      rw [hflat]
      simp [flattenF3, flattenEntry]
    · have hstep : f3Step [] m = .ok ([] ++ [(m.funct3, .group [m])]) := by
        unfold f3Step
        rw [if_neg hI]
        rfl
      have hrun : buildF3DictAux [] (m :: rest) =
          buildF3DictAux ([] ++ [(m.funct3, .group [m])]) rest := by
        simp only [buildF3DictAux, hstep]
      rcases f3Fold_ok rest [] m.funct3 (.group [m])
        (fun m' _ => by simp [dictGet])
        (fun m' hm' => hmle m' hm')
        hsort' hcompat'
        (by simp [dictGet])
        (fun m' hm' hk' => ⟨(hmc m' hm' hk'.symm).2, [m], rfl⟩)
        with ⟨D', heq, hflat⟩
      refine ⟨D', hrun.trans heq, ?_⟩
      rw [hflat]
      simp [flattenF3, flattenEntry]

/-! ### Assembling the decode tree -/

theorem genTree_ok (D : List (Nat × List Model))
    (h : ∀ p ∈ D, ∃ f3, buildF3Dict p.2 = .ok f3 ∧ flattenF3 f3 = p.2) :
    ∃ tree, genTree D = .ok tree ∧ flattenTree tree = concatBuckets D := by
  induction D with
  | nil => exact ⟨[], rfl, rfl⟩
  | cons p rest ih =>
    obtain ⟨opc, mdls⟩ := p
    rcases h (opc, mdls) (List.mem_cons_self _ _) with ⟨f3, hf3, hflat⟩
    rcases ih (fun q hq => h q (List.mem_cons_of_mem _ hq)) with ⟨tree, htree, htflat⟩
    refine ⟨(opc, f3) :: tree, ?_, ?_⟩
    · show genTree ((opc, mdls) :: rest) = .ok ((opc, f3) :: tree)
      unfold genTree
      rw [hf3, htree]
    · show flattenTree ((opc, f3) :: tree) = concatBuckets ((opc, mdls) :: rest)
      simp only [flattenTree, concatBuckets, List.flatMap_cons] at htflat ⊢
      rw [hflat, htflat]

theorem slotClash_symm {x y : Model} (h : slotClash x y) : slotClash y x := by
  obtain ⟨h1, h2, h3⟩ := h
  refine ⟨h1.symm, h2.symm, ?_⟩
  tauto

/-- C7: for a conflict-free batch, decode-tree synthesis succeeds, a second
synthesis over the caller-visible (in-place-sorted) model list produces the
structurally identical decode structure, and the traversal order of the
structure is exactly the stable sort of the models by
`(opcode, funct3, funct7)`. -/
theorem C7_confirmed (models : List Model) (hfree : slotFree models) :
    ∃ out, gen_decoder models = .ok out ∧ gen_decoder out.1 = .ok out ∧
      flattenTree out.2 = sortModels models := by
  have hsorted := sortModels_sorted models
  have hperm := sortModels_perm models
  have hsym : ∀ {x y : Model}, ¬ slotClash x y → ¬ slotClash y x :=
    fun hxy hc => hxy (slotClash_symm hc)
  have hfree' : slotFree (sortModels models) :=
    (List.Perm.pairwise_iff hsym hperm).mpr hfree
  have hopc : (sortModels models).Pairwise (fun x y => x.opc ≤ y.opc) := by
    refine hsorted.imp (fun h => ?_)
    simp only [modelKeyLe, decide_eq_true_eq] at h
    omega
  have hbuckets : ∀ p ∈ buildOpcDict (sortModels models),
      ∃ f3, buildF3Dict p.2 = .ok f3 ∧ flattenF3 f3 = p.2 := by
    intro p hp
    obtain ⟨k, ms⟩ := p
    have hms : ms = (sortModels models).filter (fun m => m.opc == k) :=
      buildOpcDict_mem _ k ms hp
    have hsub : ms.Sublist (sortModels models) := by
      rw [hms]; exact List.filter_sublist _
    have hopck : ∀ m ∈ ms, m.opc = k := by
      intro m hm
      rw [hms] at hm
      simpa using (List.mem_filter.mp hm).2
    have hsort2 : ms.Pairwise (fun x y => modelKeyLe x y = true) :=
      List.Pairwise.sublist hsub hsorted
    have hfree2 : ms.Pairwise (fun x y => ¬ slotClash x y) :=
      List.Pairwise.sublist hsub hfree'
    refine buildF3Dict_ok ms ?_ ?_
    · refine List.Pairwise.imp_of_mem ?_ hsort2
      intro x y hx hy hxy
      have hxk := hopck x hx
      have hyk := hopck y hy
      simp only [modelKeyLe, decide_eq_true_eq] at hxy
      omega
    · refine List.Pairwise.imp_of_mem ?_ hfree2
      intro x y hx hy hxy hf3
      have hxk := hopck x hx
      have hyk := hopck y hy
      constructor
      · intro hxI
        exact hxy ⟨hxk.trans hyk.symm, hf3, Or.inl hxI⟩
      · intro hyI
        exact hxy ⟨hxk.trans hyk.symm, hf3, Or.inr (Or.inl hyI)⟩
  rcases genTree_ok _ hbuckets with ⟨tree, htree, hflat⟩
  have hconcat : concatBuckets (buildOpcDict (sortModels models)) = sortModels models :=
    buildOpcDict_concat _ hopc
  have hrun1 : gen_decoder models = .ok (sortModels models, tree) := by
    unfold gen_decoder
    rw [htree]
  have hidem : sortModels (sortModels models) = sortModels models :=
    sortModels_of_sorted _ hsorted
  have hrun2 : gen_decoder (sortModels models) = .ok (sortModels models, tree) := by
    unfold gen_decoder
    rw [hidem, htree]
  exact ⟨(sortModels models, tree), hrun1, hrun2, by rw [hflat, hconcat]⟩

/-- C7, witness: the conflict-free four-model batch `c7batch` (spec §8
scenarios 1 and 3 combined, supplied out of order): synthesis succeeds, is
stable under re-synthesis of the sorted list, and traverses in stable-sorted
order. -/
theorem C7_witness :
    ∃ out, gen_decoder c7batch = .ok out ∧ gen_decoder out.1 = .ok out ∧
      flattenTree out.2 = sortModels c7batch :=
  C7_confirmed c7batch (by decide)
